import Mathlib

/-!
Verification development for a two-pass assembler written in C
(macro preprocessor, first pass building a symbol table, second pass
emitting encoded words, and output formatting).

The C sources are shallowly embedded: lines and tokens are `List Char`,
the C linked lists (symbol table, macro table, external references) are
Lean lists with front insertion, machine words carry a 12-bit payload
(`% 4096` where the C bitfield truncates) plus a relocation tag, and the
mutable globals (IC, DC, error_flag, the tables, the two memory arrays)
are threaded through explicit state records.  Fallible C functions that
return an `error_code_t` are modelled as functions returning an
`ErrorCode` (or `Except ErrorCode _`).
-/

/-- Source text: C strings are embedded as lists of characters. -/
abbrev Str := List Char

/-- C `isspace` for the whitespace characters that can occur in source lines. -/
def isSpaceC (c : Char) : Bool :=
  c == ' ' || c == '\t' || c == '\n' || c == '\x0b' || c == '\x0c' || c == '\r'

/-- C `isdigit`. -/
def isDigitC (c : Char) : Bool :=
  48 ≤ c.toNat && c.toNat ≤ 57

/-- `trim_whitespace` (utils.c): drop leading whitespace, then drop trailing
whitespace.  The C function returns a pointer past the leading whitespace and
writes a terminator after the last non-space character. -/
def trimC (l : Str) : Str :=
  ((l.dropWhile isSpaceC).reverse.dropWhile isSpaceC).reverse

/-- The in-place effect of `trim_whitespace(line)` on the `line` buffer itself:
if the line is all whitespace the buffer is untouched, otherwise the trailing
whitespace is cut off (leading whitespace stays in the buffer).  Several
callers in assembly.c print or store `line` after calling `trim_whitespace`. -/
def cLineBuf (l : Str) : Str :=
  if l.dropWhile isSpaceC = [] then l else (l.reverse.dropWhile isSpaceC).reverse

/-- Separator test for `strtok(line, " \t,")` in `split_line` (utils.c). -/
def isSepC (c : Char) : Bool :=
  c == ' ' || c == '\t' || c == ','

/-- Helper for the `strtok` model: walk the characters, `cur` holding the
(reversed) token collected so far; a separator closes the current token,
and empty tokens are skipped, as `strtok` does. -/
def tokenizeAux (sep : Char → Bool) (cur : Str) : Str → List Str
  | [] => if cur = [] then [] else [cur.reverse]
  | c :: rest =>
    if sep c then
      if cur = [] then tokenizeAux sep [] rest
      else cur.reverse :: tokenizeAux sep [] rest
    else tokenizeAux sep (c :: cur) rest

/-- `strtok`-style tokenizer: maximal runs of non-separator characters, with
empty fields skipped.  `split_line` (utils.c) uses separators space/tab/comma;
the inner loop of `encode_directive` (second_pass.c) uses `","`. -/
def tokenize (sep : Char → Bool) (l : Str) : List Str := tokenizeAux sep [] l

/-- `split_line` (utils.c): break a line into tokens at spaces, tabs and commas. -/
def splitLine (l : Str) : List Str := tokenize isSepC l

/-- `is_empty_line` (utils.c). -/
def isEmptyLine (l : Str) : Bool := l.all isSpaceC

/-- `is_comment_line` (utils.c): the line, after trimming, starts with `;`. -/
def isCommentLine (l : Str) : Bool := (trimC l).head? == some ';'

/-- `MAX_LABEL_LENGTH` (assembler.h). -/
def maxLabelLength : Nat := 32

/-- `INITIAL_IC` (assembler.h). -/
def initialIC : Nat := 100

/-- `INITIAL_DC` (assembler.h). -/
def initialDC : Nat := 0

/-- `MEMORY_SIZE` (assembler.h). -/
def memorySize : Nat := 4096

/-- `extract_label` (utils.c): find the first `:` in the line.  No colon, or a
prefix of `MAX_LABEL_LENGTH` or more characters before it, yields no label and
leaves the rest-of-line pointer at the whole original line; otherwise the
trimmed prefix is the label and the rest starts after the colon. -/
def extractLabel (line : Str) : Option Str × Str :=
  if line.contains ':' then
    let labelLen := (line.takeWhile (fun c => c ≠ ':')).length
    if maxLabelLength ≤ labelLen then (none, line)
    else (some (trimC (line.take labelLen)), line.drop (labelLen + 1))
  else (none, line)

/-- Value of a maximal leading digit run, used by the `atoi` model. -/
def digitsVal (l : Str) : Nat :=
  (l.takeWhile isDigitC).foldl (fun acc c => acc * 10 + (c.toNat - 48)) 0

/-- `string_to_int` (utils.c) = C `atoi`: skip leading whitespace, read an
optional sign and then a maximal digit run; no digits yields 0. -/
def atoiC (l : Str) : Int :=
  match l.dropWhile isSpaceC with
  | '-' :: rest => - (digitsVal rest : Int)
  | '+' :: rest => (digitsVal rest : Int)
  | rest => (digitsVal rest : Int)

/-- Operand addressing types (`operand_type_t`, assembler.h):
immediate `#5`, direct `LABEL`, indirect `*r1`, register `r1`. -/
inductive OperandType where
  | immediate | direct | indirect | register
deriving DecidableEq, Repr

/-- The numeric value of an operand type (its enum value, 0..3). -/
def OperandType.toNat : OperandType → Nat
  | .immediate => 0
  | .direct => 1
  | .indirect => 2
  | .register => 3

/-- `get_operand_type` (utils.c): classify by the leading character(s);
`rN` is a register only when the operand is exactly two characters. -/
def getOperandType (operand : Str) : OperandType :=
  match operand with
  | '#' :: _ => .immediate
  | '*' :: _ => .indirect
  | 'r' :: d :: rest => if isDigitC d ∧ rest = [] then .register else .direct
  | _ => .direct

/-- `get_register_number` (utils.c): `-1` unless the operand starts with `r`
followed by a digit `0`..`7` (the second character is read unconditionally). -/
def getRegisterNumber (operand : Str) : Int :=
  match operand with
  | 'r' :: c :: _ =>
    let n : Int := (c.toNat : Int) - 48
    if 0 ≤ n ∧ n ≤ 7 then n else -1
  | _ => -1

/-- One row of the instruction catalog (`instruction_info_t`, assembler.h).
The two masks say which operand types are legal in the source slot and the
destination slot. -/
structure InstructionInfo where
  name : Str
  opcode : Nat
  opndCount : Nat
  validSrc : OperandType → Bool
  validDest : OperandType → Bool

/-- Build a mask function from the four `{immediate, direct, indirect, register}`
flags of a catalog row. -/
def mask4 (imm dir ind reg : Bool) : OperandType → Bool
  | .immediate => imm
  | .direct => dir
  | .indirect => ind
  | .register => reg

/-- `instruction_table` (utils.c): the full static instruction catalog. -/
def instructionTable : List InstructionInfo :=
  [ ⟨"mov".toList, 0, 2, mask4 false true true true, mask4 false true true true⟩
  , ⟨"cmp".toList, 1, 2, mask4 true true true true, mask4 true true true true⟩
  , ⟨"add".toList, 2, 2, mask4 false true true true, mask4 false true true true⟩
  , ⟨"sub".toList, 3, 2, mask4 false true true true, mask4 false true true true⟩
  , ⟨"not".toList, 4, 1, mask4 false false false false, mask4 false true true true⟩
  , ⟨"clr".toList, 5, 1, mask4 false false false false, mask4 false true true true⟩
  , ⟨"lea".toList, 6, 2, mask4 false true false false, mask4 false true true true⟩
  , ⟨"inc".toList, 7, 1, mask4 false false false false, mask4 false true true true⟩
  , ⟨"dec".toList, 8, 1, mask4 false false false false, mask4 false true true true⟩
  , ⟨"jmp".toList, 9, 1, mask4 false false false false, mask4 false true false true⟩
  , ⟨"bne".toList, 10, 1, mask4 false false false false, mask4 false true false true⟩
  , ⟨"red".toList, 11, 1, mask4 false false false false, mask4 false true true true⟩
  , ⟨"prn".toList, 12, 1, mask4 false false false false, mask4 true true true true⟩
  , ⟨"jsr".toList, 13, 1, mask4 false false false false, mask4 false true false true⟩
  , ⟨"rts".toList, 14, 0, mask4 false false false false, mask4 false false false false⟩
  , ⟨"hlt".toList, 15, 0, mask4 false false false false, mask4 false false false false⟩ ]

/-- `get_instruction_info` (utils.c): linear search of the catalog by name. -/
def getInstructionInfo (name : Str) : Option InstructionInfo :=
  instructionTable.find? (fun info => info.name = name)

/-- `is_instruction` (first_pass.c). -/
def isInstruction (word : Str) : Bool := (getInstructionInfo word).isSome

/-- `is_directive` (first_pass.c). -/
def isDirective (word : Str) : Bool :=
  word = ".data".toList || word = ".string".toList ||
  word = ".entry".toList || word = ".extern".toList

/-- The per-slot validity check of `get_instruction_length` (utils.c):
operand 0 is validated against the source mask, any later operand against
the destination mask. -/
def slotMaskOk (info : InstructionInfo) (i : Nat) (type : OperandType) : Bool :=
  if i = 0 then info.validSrc type else info.validDest type

/-- The body of `get_instruction_length`'s loop (utils.c) for operand index
`i`: validate the operand type against the slot mask; the first of two
register operands and (by the `else if` condition) any register operand of a
two-operand instruction contribute no word, every other operand adds one. -/
def lengthStep (info : InstructionInfo) (operands : List Str) (opndCount : Nat)
    (acc : Option Nat) (i : Nat) : Option Nat :=
  match acc with
  | none => none
  | some length =>
    if ¬ slotMaskOk info i (getOperandType (operands.getD i [])) then none
    else if opndCount = 2 ∧ i = 0 ∧ getOperandType (operands.getD i []) = .register ∧
        getOperandType (operands.getD 1 []) = .register then
      some length
    else if getOperandType (operands.getD i []) ≠ .register ∨ opndCount = 1 then
      some (length + 1)
    else some length

/-- `get_instruction_length` (utils.c): Pass 1's sizing function.  Returns
`none` where the C function returns `-1` (unknown mnemonic, wrong operand
count, or an operand type outside the slot's mask). -/
def getInstructionLength (instruction : Str) (operands : List Str) : Option Nat :=
  match getInstructionInfo instruction with
  | none => none
  | some info =>
    if operands.length ≠ info.opndCount then none
    else (List.range info.opndCount).foldl (lengthStep info operands info.opndCount) (some 1)

/-- `is_valid_integer` (utils.c). -/
def isValidInteger (l : Str) : Bool :=
  match l with
  | [] => false
  | c :: rest =>
    let body := if c = '+' ∨ c = '-' then rest else c :: rest
    body ≠ [] && body.all isDigitC

example : getInstructionLength "mov".toList ["r1".toList, "r2".toList] = some 1 := by decide
example : getInstructionLength "rts".toList [] = some 1 := by decide
example : getInstructionLength "inc".toList ["r1".toList] = none := by decide
example : getInstructionLength "mov".toList ["x".toList, "y".toList] = some 3 := by decide

/-! ## Error codes and symbols -/

/-- `error_code_t` (assembler.h).  `invalidStx` is `ERROR_INVALID_SYNTAX`,
`memAlloc` is `ERROR_MEMORY_ALLOCATION`, `mcrNotFound` is
`ERROR_MACRO_NOT_FOUND`; the rest keep their C names. -/
inductive ErrorCode where
  | success | fileNotFound | memAlloc | invalidStx | invalidInstruction
  | invalidOperand | invalidDirective | undefinedLabel | duplicateLabel
  | lineTooLong | mcrNotFound
deriving DecidableEq, Repr

/-- `symbol_t` (first_pass.h): name, address and the external/entry/data flags.
`instrBound` is ghost instrumentation, not present in the C struct: it is set
exactly by the `add_symbol` call inside `process_instruction_first_pass`, so
that the theorems can speak about "symbols bound on an instruction line". -/
structure AsmSymbol where
  name : Str
  address : Nat
  isExternalFlag : Bool
  isEntryFlag : Bool
  isDataFlag : Bool
  instrBound : Bool
deriving DecidableEq, Repr

/-- `find_symbol` (first_pass.c): first match in the linked list. -/
def findSymbol (name : Str) (table : List AsmSymbol) : Option AsmSymbol :=
  table.find? (fun s => s.name = name)

/-- `add_symbol` (first_pass.c): fails with `DuplicateLabel` when some binding
of the name already exists and the new binding is not external (the check is
`existing && !is_external` on the *new* symbol's flag); otherwise the new
symbol is pushed on the front of the list with the entry flag clear.
`instrB` is the ghost instruction-line marker (see `AsmSymbol`). -/
def addSymbol (name : Str) (address : Nat) (isExt isData instrB : Bool)
    (table : List AsmSymbol) : Except ErrorCode (List AsmSymbol) :=
  if (findSymbol name table).isSome ∧ isExt = false then
    .error .duplicateLabel
  else
    .ok (⟨name, address, isExt, false, isData, instrB⟩ :: table)

/-! ## First pass -/

/-- The mutable state visible to Pass 1: the `IC`/`DC` counters, the global
symbol table, the global `error_flag`, and a ghost list of the per-line error
codes that `first_pass` reports (each `print_error` call for a failing line
appends one entry). -/
structure FPState where
  ic : Nat
  dc : Nat
  symtab : List AsmSymbol
  errorFlag : Bool
  errors : List ErrorCode
deriving DecidableEq, Repr

/-- The label-binding step at the top of `process_instruction_first_pass`
(first_pass.c): a present, non-empty label is bound to the current `IC` with
the ghost instruction-line marker set. -/
def bindInstrLabel (st : FPState) (label : Option Str) :
    Except ErrorCode (List AsmSymbol) :=
  match label with
  | some l => if l ≠ [] then addSymbol l st.ic false false true st.symtab else .ok st.symtab
  | none => .ok st.symtab

/-- `process_instruction_first_pass` (first_pass.c): bind the label (if any)
to the current `IC`, then size the instruction with `get_instruction_length`
and advance `IC`; `DuplicateLabel` / `InvalidInstruction` / `InvalidOperand`
leave the counters untouched. -/
def processInstructionFP (st : FPState) (parts : List Str) (label : Option Str) :
    ErrorCode × FPState :=
  match bindInstrLabel st label with
  | .error _ => (.duplicateLabel, st)
  | .ok tab =>
    match getInstructionInfo (parts.getD 0 []) with
    | none => (.invalidInstruction, {st with symtab := tab})
    | some _ =>
      match getInstructionLength (parts.getD 0 []) (parts.drop 1) with
      | none => (.invalidOperand, {st with symtab := tab})
      | some len => (.success, {st with symtab := tab, ic := st.ic + len})

/-- An `add_symbol(...)` call whose `error_code_t` result is discarded, as
`process_directive_first_pass` does for `.data`, `.string` and `.extern`
labels: on failure the table is simply left unchanged. -/
def addSymbolDiscard (nm : Str) (addr : Nat) (isExt isData : Bool)
    (tab : List AsmSymbol) : List AsmSymbol :=
  match addSymbol nm addr isExt isData false tab with
  | .ok t => t
  | .error _ => tab

/-- The label-binding step of `.data`/`.string` lines in
`process_directive_first_pass` (first_pass.c): a present, non-empty label is
bound (result discarded) at the given data-counter address. -/
def bindDirectiveLabel (st : FPState) (label : Option Str) (addr : Nat)
    (isData : Bool) : List AsmSymbol :=
  match label with
  | some l => if l ≠ [] then addSymbolDiscard l addr false isData st.symtab else st.symtab
  | none => st.symtab

/-- `process_directive_first_pass` (first_pass.c).  Note that the result of
`add_symbol` is discarded for `.data`, `.string` and `.extern` (a duplicate
label on a data line is silently ignored), `.data` advances `DC` by the
number of remaining tokens, `.string` by `strlen(parts[1]) - 1`, and an
unknown directive token yields `InvalidDirective`. -/
def processDirectiveFP (st : FPState) (parts : List Str) (label : Option Str) :
    ErrorCode × FPState :=
  if parts.getD 0 [] = ".data".toList then
    let tab := bindDirectiveLabel st label st.dc true
    (.success, {st with symtab := tab, dc := st.dc + (parts.length - 1)})
  else if parts.getD 0 [] = ".string".toList then
    let dc' := if 1 < parts.length then st.dc + ((parts.getD 1 []).length - 1) else st.dc
    (.success, {st with symtab := bindDirectiveLabel st label st.dc true, dc := dc'})
  else if parts.getD 0 [] = ".entry".toList then
    (.success, st)
  else if parts.getD 0 [] = ".extern".toList then
    if 1 < parts.length then
      (.success, {st with symtab := addSymbolDiscard (parts.getD 1 []) 0 true false st.symtab})
    else (.success, st)
  else (.invalidDirective, st)

/-- `process_line_first_pass` (first_pass.c): skip blank/comment lines,
extract an optional label, tokenize the rest, and dispatch on the first
token.  A line that is only a label binds it to the current `IC`. -/
def processLineFP (st : FPState) (line : Str) : ErrorCode × FPState :=
  if isEmptyLine line || isCommentLine line then (.success, st)
  else
    match splitLine (trimC (extractLabel line).2) with
    | [] =>
      match (extractLabel line).1 with
      | some l =>
        match addSymbol l st.ic false false false st.symtab with
        | .ok tab => (.success, {st with symtab := tab})
        | .error _ => (.duplicateLabel, st)
      | none => (.success, st)
    | w0 :: ws =>
      if isInstruction w0 then
        processInstructionFP st (w0 :: ws) (extractLabel line).1
      else if isDirective w0 then
        processDirectiveFP st (w0 :: ws) (extractLabel line).1
      else (.invalidInstruction, st)

/-- One iteration of the `first_pass` read loop: process the line; a failing
line is reported (recorded in the ghost `errors` list) and scanning goes on.
`error_flag` is *not* touched here, faithfully to the source. -/
def stepFP (st : FPState) (line : Str) : FPState :=
  if (processLineFP st line).1 = .success then (processLineFP st line).2
  else {(processLineFP st line).2 with
    errors := (processLineFP st line).2.errors ++ [(processLineFP st line).1]}

/-- The scanning loop of `first_pass` (first_pass.c), before the data rebase. -/
def firstPassScan (lines : List Str) : FPState :=
  lines.foldl stepFP ⟨initialIC, initialDC, [], false, []⟩

/-- The data-address rebase at the end of `first_pass`: every symbol flagged
as data gets the final `IC` added to its address. -/
def rebaseData (finalIC : Nat) (table : List AsmSymbol) : List AsmSymbol :=
  table.map (fun s => if s.isDataFlag then {s with address := s.address + finalIC} else s)

/-- `first_pass` (first_pass.c): scan all lines, then rebase the data
symbols by the final instruction counter. -/
def firstPass (lines : List Str) : FPState :=
  let st := firstPassScan lines
  {st with symtab := rebaseData st.ic st.symtab}

/-- `first_pass`'s return value: `error_flag ? ERROR_INVALID_SYNTAX : SUCCESS`
(the scanning loop never sets `error_flag`, faithfully to the source). -/
def firstPassResult (lines : List Str) : ErrorCode :=
  if (firstPass lines).errorFlag then .invalidStx else .success

example : (firstPass ["LOOP: mov r1, r2".toList]).symtab =
    [⟨"LOOP".toList, 100, false, false, false, true⟩] := by decide
example : (firstPass ["LOOP: mov r1, r2".toList]).ic = 101 := by decide
example : (firstPass ["A: rts".toList, "A: rts".toList]).errors = [.duplicateLabel] := by decide
example : (firstPass ["LOOP: inc r1".toList]).ic = 100 := by decide
example : (firstPass ["X: .data 4,5".toList]).symtab =
    [⟨"X".toList, 100, false, false, true, false⟩] := by decide

/-! ## Second pass -/

/-- The ARE relocation tags (`are_t`, assembler.h): Absolute = 0,
External = 1, Relocatable = 2. -/
inductive Are where
  | absolute | external | relocatable
deriving DecidableEq, Repr

/-- `word_t` (assembler.h): a 12-bit payload bitfield plus the ARE tag.
`value` is always `< 4096`; `mkWord` performs the bitfield truncation. -/
structure MemWord where
  value : Nat
  are : Are
deriving DecidableEq, Repr

/-- Store an `int` into the 12-bit `value` bitfield of `word_t`:
the C assignment keeps the low 12 bits (two's complement for negatives). -/
def mkWord (v : Int) (a : Are) : MemWord :=
  ⟨(v % 4096).toNat, a⟩

/-- `Modelled from the spec:` `parse_matrix_operand` is declared in utils.h
and called by `encode_operand_word` (second_pass.c), but no definition exists
anywhere in the repository sources.  Per the spec, a Direct operand is a label
reference whose symbol is resolved by name, and a matrix operand
`M1[r2][r7]`'s base symbol is the text before the indexing brackets; so the
model extracts the text before the first `[`, i.e. the whole operand when no
bracket is present. -/
def parseMatrixOperand (operand : Str) : Str :=
  operand.takeWhile (fun c => c ≠ '[')

/-- The mutable state visible to Pass 2: the counters, the (final) symbol
table, the two memory arrays as write traces (`iwrites` holds
`(address - INITIAL_IC, word)` pairs in store order, `dwrites` holds
`(DC, word)` pairs), the external-reference list (front insertion, as in
`add_external_reference`), the global `error_flag`, and a ghost list of the
per-line error codes observed by the `second_pass` loop. -/
structure SPState where
  ic : Nat
  dc : Nat
  symtab : List AsmSymbol
  iwrites : List (Nat × MemWord)
  dwrites : List (Nat × MemWord)
  extRefs : List (Str × Nat)
  errorFlag : Bool
  errors : List ErrorCode
deriving DecidableEq, Repr

/-- `encode_word` (second_pass.c): store a word in instruction memory at
index `address - INITIAL_IC`; an address at or beyond `MEMORY_SIZE` is
rejected (the error return is ignored by every caller). -/
def encodeWord (st : SPState) (address : Nat) (v : Int) (a : Are) : SPState :=
  if memorySize ≤ address then st
  else {st with iwrites := st.iwrites ++ [(address - initialIC, mkWord v a)]}

/-- `add_external_reference` (second_pass.c): push a `(label, address)` record
on the *front* of the external-reference list. -/
def addExternalReference (label : Str) (address : Nat) (refs : List (Str × Nat)) :
    List (Str × Nat) :=
  (label, address) :: refs

/-- `encode_operand_word` (second_pass.c): emit the extra word(s) for one
operand.  Immediate: the parsed literal, Absolute.  Direct: the resolved
symbol's address tagged Relocatable, or a zero word tagged External plus an
external-reference record; an unresolved symbol yields `UndefinedLabel`.
Indirect: like Direct for the base word, plus one Absolute index word when
the operand carries `[`..`]` brackets.  Register: the register ordinal,
Absolute. -/
def encodeOperandWord (st : SPState) (operand : Str) (type : OperandType) :
    ErrorCode × SPState :=
  match type with
  | .immediate =>
    let st1 := encodeWord st st.ic (atoiC (operand.drop 1)) .absolute
    (.success, {st1 with ic := st.ic + 1})
  | .direct =>
    match findSymbol (parseMatrixOperand operand) st.symtab with
    | some sym =>
      if sym.isExternalFlag then
        let st1 := encodeWord st st.ic 0 .external
        let st2 := {st1 with extRefs := addExternalReference operand st.ic st1.extRefs}
        (.success, {st2 with ic := st.ic + 1})
      else
        let st1 := encodeWord st st.ic (sym.address : Int) .relocatable
        (.success, {st1 with ic := st.ic + 1})
    | none => (.undefinedLabel, st)
  | .indirect =>
    match findSymbol (parseMatrixOperand operand) st.symtab with
    | some sym =>
      let st1 :=
        if sym.isExternalFlag then
          let s := encodeWord st st.ic 0 .external
          {s with extRefs := addExternalReference operand st.ic s.extRefs, ic := st.ic + 1}
        else
          let s := encodeWord st st.ic (sym.address : Int) .relocatable
          {s with ic := st.ic + 1}
      if operand.contains '[' && operand.contains ']' then
        let st2 := encodeWord st1 st1.ic 0 .absolute
        (.success, {st2 with ic := st1.ic + 1})
      else (.success, st1)
    | none => (.undefinedLabel, st)
  | .register =>
    let st1 := encodeWord st st.ic (getRegisterNumber operand) .absolute
    (.success, {st1 with ic := st.ic + 1})

/-- `encode_instruction_from_parts` (second_pass.c): build and emit the
leading word (opcode in bits 9-6, operand type tags in bits 5-4 and 3-2),
then the operand words.  When both operands of a two-operand instruction are
registers, their ordinals are packed into one shared word
`(src << 6) | (dest << 3)`.  The error results of the `encode_operand_word`
calls are discarded, exactly as in the source. -/
def encodeInstructionFromParts (st : SPState) (parts : List Str) :
    ErrorCode × SPState :=
  match parts with
  | [] => (.invalidStx, st)
  | p0 :: _ =>
    match getInstructionInfo p0 with
    | none => (.invalidInstruction, st)
    | some info =>
      if info.opndCount = 0 then
        let fw := info.opcode <<< 6
        let st1 := encodeWord st st.ic fw .absolute
        (.success, {st1 with ic := st.ic + 1})
      else if info.opndCount = 1 then
        let op := parts.getD 1 []
        let dt := getOperandType op
        let fw := (info.opcode <<< 6) ||| (dt.toNat <<< 2)
        let st1 := {encodeWord st st.ic fw .absolute with ic := st.ic + 1}
        let (_, st2) := encodeOperandWord st1 op dt
        (.success, st2)
      else if info.opndCount = 2 then
        let op1 := parts.getD 1 []
        let op2 := parts.getD 2 []
        let srcT := getOperandType op1
        let dstT := getOperandType op2
        let fw := (info.opcode <<< 6) ||| (srcT.toNat <<< 4) ||| (dstT.toNat <<< 2)
        let st1 := {encodeWord st st.ic fw .absolute with ic := st.ic + 1}
        if srcT = .register ∧ dstT = .register then
          let srcReg := getRegisterNumber op1
          let dstReg := getRegisterNumber op2
          if srcReg = -1 ∨ dstReg = -1 then (.invalidOperand, st1)
          else
            let v : Int := ((srcReg.toNat <<< 6) ||| (dstReg.toNat <<< 3) : Nat)
            let st2 := {encodeWord st1 st1.ic v .absolute with ic := st1.ic + 1}
            (.success, st2)
        else
          let (_, st2) := encodeOperandWord st1 op1 srcT
          let (_, st3) := encodeOperandWord st2 op2 dstT
          (.success, st3)
      else (.success, st)

/-- Set the entry flag on the first symbol with the given name (the effect of
`find_symbol` + `symbol->is_entry = 1` in `encode_directive`). -/
def markEntry (name : Str) : List AsmSymbol → List AsmSymbol
  | [] => []
  | s :: rest =>
    if s.name = name then {s with isEntryFlag := true} :: rest
    else s :: markEntry name rest

/-- One value token of a `.data` (or `.mat`) directive in Pass 2: skip leading
spaces/tabs, and if anything remains parse it with `atoi` and store an
Absolute data word at the current `DC`. -/
def dataTokenWrite (st : SPState) (tok : Str) : SPState :=
  let tok' := tok.dropWhile (fun c => c == ' ' || c == '\t')
  if tok' = [] then st
  else {st with dwrites := st.dwrites ++ [(st.dc, mkWord (atoiC tok') .absolute)],
                dc := st.dc + 1}

/-- One `.data` part in Pass 2: the inner `strtok(temp_str, ",")` loop
(a no-op re-split, since `split_line` already removed the commas). -/
def dataPartWrite (st : SPState) (part : Str) : SPState :=
  (tokenize (fun c => c == ',') part).foldl dataTokenWrite st

/-- `encode_directive` (second_pass.c): `.data`/`.mat` store Absolute data
words; `.string` stores each character between the quote marks and a zero
terminator (offsets 1, or 3 for the Unicode-quote variant); `.entry` sets the
entry flag of the named symbol, failing `UndefinedLabel` if absent;
`.extern` was fully handled in Pass 1 and is a no-op. -/
def encodeDirective (st : SPState) (line : Str) : ErrorCode × SPState :=
  let parts := splitLine (trimC line)
  match parts with
  | [] => (.success, st)
  | p0 :: _ =>
    if p0 = ".data".toList then
      (.success, (parts.drop 1).foldl dataPartWrite st)
    else if p0 = ".string".toList then
      if 1 < parts.length then
        let str := parts.getD 1 []
        let hd := str.headD '\x00'
        let lst := str.getLastD '\x00'
        if (hd = '"' ∧ lst = '"') ∨ (128 ≤ hd.toNat ∧ 128 ≤ lst.toNat) then
          let startOff := if hd = '"' then 1 else 3
          let endOff := if lst = '"' then 1 else 3
          let chars := (str.take (str.length - endOff)).drop startOff
          let st1 := chars.foldl
            (fun s c => {s with dwrites := s.dwrites ++ [(s.dc, mkWord (c.toNat : Int) .absolute)],
                                dc := s.dc + 1}) st
          let st2 := {st1 with dwrites := st1.dwrites ++ [(st1.dc, mkWord 0 .absolute)],
                               dc := st1.dc + 1}
          (.success, st2)
        else (.success, st)
      else (.success, st)
    else if p0 = ".entry".toList then
      if 1 < parts.length then
        match findSymbol (parts.getD 1 []) st.symtab with
        | some _ => (.success, {st with symtab := markEntry (parts.getD 1 []) st.symtab})
        | none => (.undefinedLabel, st)
      else (.success, st)
    else if p0 = ".extern".toList then
      (.success, st)
    else if p0 = ".mat".toList then
      (.success, (parts.drop 2).foldl dataPartWrite st)
    else (.success, st)

/-- `process_line_second_pass` (second_pass.c): skip blank/comment lines,
strip any label (it was handled in Pass 1), tokenize, and encode the line as
an instruction or a directive; any other first token is silently skipped. -/
def processLineSP (st : SPState) (line : Str) : ErrorCode × SPState :=
  if isEmptyLine line || isCommentLine line then (.success, st)
  else
    let trimmed := trimC (extractLabel line).2
    let words := splitLine trimmed
    match words with
    | [] => (.success, st)
    | w0 :: _ =>
      if isInstruction w0 then encodeInstructionFromParts st words
      else if isDirective w0 then encodeDirective st trimmed
      else (.success, st)

/-- One iteration of the `second_pass` read loop: a failing line is reported
and sets the global `error_flag`; scanning continues. -/
def stepSP (st : SPState) (line : Str) : SPState :=
  let (r, st') := processLineSP st line
  if r = .success then st'
  else {st' with errorFlag := true, errors := st'.errors ++ [r]}

/-- `second_pass` (second_pass.c): reset `IC`/`DC` to their starting values
and process every line of the expanded source against the final symbol
table. -/
def secondPass (lines : List Str) (symtab : List AsmSymbol) (errorFlag0 : Bool) : SPState :=
  lines.foldl stepSP ⟨initialIC, initialDC, symtab, [], [], [], errorFlag0, []⟩

/-- `second_pass`'s return value: `error_flag ? ERROR_INVALID_SYNTAX : SUCCESS`. -/
def secondPassResult (st : SPState) : ErrorCode :=
  if st.errorFlag then .invalidStx else .success

example :
    (secondPass ["LOOP: mov r1, r2".toList]
      [⟨"LOOP".toList, 100, false, false, false, true⟩] false).iwrites =
    [(0, ⟨60, .absolute⟩), (1, ⟨80, .absolute⟩)] := by decide
example :
    (secondPass ["mov FOO, r1".toList] [] false).errorFlag = false := by decide
example :
    (secondPass ["mov FOO, r1".toList] [] false).iwrites =
    [(0, ⟨28, .absolute⟩), (1, ⟨1, .absolute⟩)] := by decide

/-! ## Output formatting -/

/-- The 10-bit binary string built by `generate_object_file` (second_pass.c)
from a word's value: bits 9 down to 0, most significant first. -/
def binary10 (v : Nat) : List Bool :=
  (List.range 10).map (fun k => v.testBit (9 - k))

/-- The letter for one base-4 digit (`base4_chars[] = "abcd"`). -/
def base4Char (d : Nat) : Char :=
  match d with
  | 0 => 'a'
  | 1 => 'b'
  | 2 => 'c'
  | _ => 'd'

/-- `encode_binary10_to_letters` (second_pass.c): split the 10 bits into 5
MSB-first pairs and map each pair to a letter `a`..`d`; anything that is not
exactly 10 bits falls back to `"aaaaa"`. -/
def encodeBinary10ToLetters (bits : List Bool) : Str :=
  if bits.length ≠ 10 then "aaaaa".toList
  else
    (List.range 5).map (fun i =>
      base4Char (2 * (if bits.getD (2 * i) false then 1 else 0) +
        (if bits.getD (2 * i + 1) false then 1 else 0)))

/-- The textual token that `generate_object_file` writes for one memory word:
only the low 10 bits of the payload are rendered; the ARE tag is not
consulted at all (the source comments: "we encode only the 10-bit
instruction part as per requirements"). -/
def objWordToken (w : MemWord) : Str :=
  encodeBinary10ToLetters (binary10 w.value)

/-- `encode_decimal_address_to_letters` (second_pass.c): the 5 base-4 digits
of the address, most significant first, as letters `a`..`d`. -/
def encodeDecimalAddressToLetters (address : Nat) : Str :=
  (List.range 5).map (fun i => base4Char (address / 4 ^ (4 - i) % 4))

/-- `print_specialbase` (second_pass.c): 3 letters for counts below 64,
5 letters otherwise. -/
def printSpecialBase (value : Nat) : Str :=
  if value < 64 then (encodeDecimalAddressToLetters value).drop 2
  else encodeDecimalAddressToLetters value

/-- Read back a memory cell from the write trace: the last write to that
index wins; unwritten cells hold 0 with tag Absolute (the C arrays have
static storage and start zeroed). -/
def memAt (writes : List (Nat × MemWord)) (i : Nat) : MemWord :=
  match writes.reverse.find? (fun p => p.1 = i) with
  | some p => p.2
  | none => ⟨0, .absolute⟩

/-- The lines of the object artifact (`generate_object_file`): a header with
the two counts, then one `<address letters>  <word letters>` line per
instruction word and per data word. -/
def generateObjectRows (sp : SPState) : List Str :=
  let header := printSpecialBase (sp.ic - initialIC) ++ [' '] ++ printSpecialBase sp.dc
  let irows := (List.range (sp.ic - initialIC)).map (fun i =>
    encodeDecimalAddressToLetters (initialIC + i) ++ "  ".toList ++
      objWordToken (memAt sp.iwrites i))
  let drows := (List.range sp.dc).map (fun i =>
    encodeDecimalAddressToLetters (sp.ic + i) ++ "  ".toList ++
      objWordToken (memAt sp.dwrites i))
  header :: (irows ++ drows)

/-- `%04d` formatting of an address. -/
def pad4 (n : Nat) : Str :=
  let ds := Nat.toDigits 10 n
  List.replicate (4 - ds.length) '0' ++ ds

/-- One record of the externals artifact: `fprintf(file, "%s %04d\n", ...)`. -/
def extRow (r : Str × Nat) : Str := r.1 ++ [' '] ++ pad4 r.2

/-- `generate_entries_file` (second_pass.c): omitted entirely when no symbol
has the entry flag; otherwise one `name %04d` row per entry symbol in symbol
table traversal order. -/
def generateEntriesRows (symtab : List AsmSymbol) : Option (List Str) :=
  if symtab.any (fun s => s.isEntryFlag) then
    some ((symtab.filter (fun s => s.isEntryFlag)).map
      (fun s => s.name ++ [' '] ++ pad4 s.address))
  else none

/-- `generate_externals_file` (second_pass.c): omitted when the reference
list is empty; otherwise one row per node, walking the list from its head. -/
def generateExternalsRows (refs : List (Str × Nat)) : Option (List Str) :=
  if refs = [] then none else some (refs.map extRow)

/-! ## Macro preprocessor -/

/-- `macro_def_t` (assembly.h): a name and the stored body lines, in order. -/
structure McrDef where
  name : Str
  content : List Str
deriving DecidableEq, Repr

/-- `find_macro` (assembly.c): first match in the table. -/
def findMcr (name : Str) (table : List McrDef) : Option McrDef :=
  table.find? (fun m => m.name = name)

/-- The state of `process_macros`'s two-state machine (assembly.c):
whether we are inside a definition, the recorded name, the body collected so
far, the table (front insertion, as `add_macro`), and the output stream. -/
structure McrState where
  inBody : Bool
  defName : Str
  buffer : List Str
  table : List McrDef
  output : List Str
deriving DecidableEq, Repr

/-- `MAX_MACRO_LINES` (assembler.h). -/
def maxMcrLines : Nat := 100

/-- The candidate first token that `process_macros` looks up in the table on
a Normal-state line: strip a trailing `;` comment, trim, skip a leading
`label:` prefix, then take the first whitespace-delimited token (truncated to
`MAX_LABEL_LENGTH - 1` characters by the copy loop). -/
def candidateOf (trimmed : Str) : Str :=
  let noComment := trimmed.takeWhile (fun c => c ≠ ';')
  let p := trimC noComment
  let p2 := if p.contains ':' then trimC ((p.dropWhile (fun c => c ≠ ':')).drop 1) else p
  (p2.takeWhile (fun c => ¬ isSpaceC c)).take (maxLabelLength - 1)

/-- One iteration of the `process_macros` read loop (assembly.c).  Comment
and blank lines are copied through; a `mcro NAME`/`macr NAME` line starts
collecting (resetting the buffer); `mcroend`/`endmacr` registers the buffer
under the recorded name when non-empty; while collecting, lines are appended
to the buffer (aborting with `LineTooLong` past `MAX_MACRO_LINES`); otherwise
a line whose candidate token names a stored definition is replaced by every
stored line of that definition, in order, and any other line is copied
unchanged.  Output and stored lines are the `line` buffer as left by
`trim_whitespace`'s in-place mutation (`cLineBuf`). -/
def stepMcr (st : McrState) (rawLine : Str) : Except ErrorCode McrState :=
  let trimmed := trimC rawLine
  let lineBuf := cLineBuf rawLine
  if isEmptyLine trimmed || trimmed.head? == some ';' then
    .ok {st with output := st.output ++ [lineBuf]}
  else if "mcro ".toList.isPrefixOf trimmed ∨ "macr ".toList.isPrefixOf trimmed then
    .ok {st with inBody := true, buffer := [], defName := trimC (trimmed.drop 5)}
  else if trimmed = "mcroend".toList ∨ trimmed = "endmacr".toList then
    if st.inBody then
      let table' := if st.buffer ≠ [] then ⟨st.defName, st.buffer⟩ :: st.table else st.table
      .ok {st with inBody := false, buffer := [], table := table'}
    else .ok st
  else if st.inBody then
    if maxMcrLines ≤ st.buffer.length then .error .lineTooLong
    else .ok {st with buffer := st.buffer ++ [lineBuf]}
  else
    let cand := candidateOf trimmed
    match (if cand = [] then none else findMcr cand st.table) with
    | some m => .ok {st with output := st.output ++ m.content}
    | none => .ok {st with output := st.output ++ [lineBuf]}

/-- `process_macros` (assembly.c): run the state machine over all input
lines.  Reaching end-of-input while still collecting is a warning only; the
incomplete definition is simply dropped. -/
def processMcrs (lines : List Str) : Except ErrorCode McrState :=
  lines.foldlM stepMcr ⟨false, [], [], [], []⟩

example :
    (processMcrs ["macr M".toList, "inc r1".toList, "inc r2".toList,
      "endmacr".toList, "A: M".toList]).toOption.map (fun st => st.output) =
    some ["inc r1".toList, "inc r2".toList] := by decide

/-! ## Per-unit orchestration -/

/-- The three output artifacts of one unit (object, entries, externals), each
as its list of text rows; entries/externals are omitted (`none`) when empty. -/
structure Artifacts where
  obj : List Str
  ent : Option (List Str)
  ext : Option (List Str)
deriving DecidableEq, Repr

/-- What one run of `process_single_file` (main.c) observably produces:
the per-line errors reported by each pass, the final `error_flag`, and the
artifacts — `none` when a stage aborted or `error_flag` was set, in which
case no output file is written. -/
structure UnitResult where
  fpErrors : List ErrorCode
  spErrors : List ErrorCode
  errorFlag : Bool
  artifacts : Option Artifacts
deriving DecidableEq, Repr

/-- `process_single_file` (main.c): reset the global state, expand macros,
run the first pass, run the second pass, and generate the three output files
only if `error_flag` is still clear. -/
def runUnit (asLines : List Str) : UnitResult :=
  match processMcrs asLines with
  | .error _ => ⟨[], [], false, none⟩
  | .ok mst =>
    let fp := firstPass mst.output
    if firstPassResult mst.output ≠ .success then ⟨fp.errors, [], fp.errorFlag, none⟩
    else
      let sp := secondPass mst.output fp.symtab fp.errorFlag
      if sp.errorFlag then ⟨fp.errors, sp.errors, true, none⟩
      else
        ⟨fp.errors, sp.errors, false,
          some ⟨generateObjectRows sp, generateEntriesRows sp.symtab,
            generateExternalsRows sp.extRefs⟩⟩

example : (runUnit ["A: rts".toList, "A: rts".toList]).fpErrors = [.duplicateLabel] := by decide
example : (runUnit ["A: rts".toList, "A: rts".toList]).artifacts.isSome = true := by decide
example : (runUnit ["mov FOO, r1".toList]).artifacts.isSome = true := by decide
example : (runUnit ["mov FOO, r1".toList]).errorFlag = false := by decide
example :
    (runUnit [".extern FOO".toList, "mov FOO, r1".toList]).artifacts.map (fun a => a.ext) =
    some (some ["FOO 0101".toList]) := by decide

/-! ## Theorems about the claims -/

deriving instance DecidableEq for Except

/-- C1: sizing/encoding agreement fails.  For `mov r1, r2` — a legal
operand-type combination of a catalog mnemonic, and the register-pair packing
case the claim singles out — Pass 1's `get_instruction_length` computes 1
word, while Pass 2's `encode_instruction_from_parts` emits 2 words (the
opcode word plus the shared packed-register word; the sizing function's own
header comment also says 2).  The sizing loop never counts the shared word:
its `else if (type != REGISTER || operand_count == 1)` test skips every
register operand of a two-operand instruction. -/
theorem sizing_disagrees_with_encoding_on_mov_r1_r2 :
    getInstructionLength "mov".toList ["r1".toList, "r2".toList] = some 1 ∧
    (encodeInstructionFromParts ⟨initialIC, initialDC, [], [], [], [], false, []⟩
      ["mov".toList, "r1".toList, "r2".toList]).2.iwrites.length = 2 ∧
    (encodeInstructionFromParts ⟨initialIC, initialDC, [], [], [], [], false, []⟩
      ["mov".toList, "r1".toList, "r2".toList]).1 = .success := by decide

/-- C2: an undefined symbol used as a Direct operand does yield
`UndefinedLabel` inside `encode_operand_word` (first conjunct, evaluated at
the exact state reached after the opcode word of `mov FOO, r1`), but
`encode_instruction_from_parts` discards that result, so for the unit
consisting of the single line `mov FOO, r1` with `FOO` never declared the
second pass records no error, `error_flag` stays clear, and all artifacts
are produced — contradicting the claim. -/
theorem undefined_direct_operand_error_is_swallowed :
    (encodeOperandWord ⟨101, 0, [], [(0, ⟨28, .absolute⟩)], [], [], false, []⟩
      "FOO".toList .direct).1 = .undefinedLabel ∧
    findSymbol "FOO".toList (firstPass ["mov FOO, r1".toList]).symtab = none ∧
    (runUnit ["mov FOO, r1".toList]).spErrors = [] ∧
    (runUnit ["mov FOO, r1".toList]).errorFlag = false ∧
    (runUnit ["mov FOO, r1".toList]).artifacts.isSome = true := by decide

/-- C4: a per-line error recorded in Pass 1 does not suppress the output
artifacts.  For the unit `A: rts` / `A: rts`, Pass 1 records
`DuplicateLabel` on the second line, but `first_pass` never sets
`error_flag` (even though its own return statement reads it), so
`process_single_file` reaches the output stage with the flag clear and
writes all three artifacts — contradicting the claim. -/
theorem pass1_error_does_not_suppress_artifacts :
    (runUnit ["A: rts".toList, "A: rts".toList]).fpErrors = [.duplicateLabel] ∧
    (runUnit ["A: rts".toList, "A: rts".toList]).errorFlag = false ∧
    (runUnit ["A: rts".toList, "A: rts".toList]).artifacts.isSome = true := by decide

/-- C8: for the unit consisting of the single line `LOOP: mov r1, r2`,
Pass 1 binds `LOOP` to the initial instruction counter, and Pass 2 emits
exactly 2 words: the opcode word with both operand-type tag fields set to
Register, then one shared word packing the two register ordinals
`(1 << 6) | (2 << 3)`. -/
theorem loop_mov_r1_r2_two_words :
    (firstPass ["LOOP: mov r1, r2".toList]).symtab =
      [⟨"LOOP".toList, initialIC, false, false, false, true⟩] ∧
    (secondPass ["LOOP: mov r1, r2".toList]
        (firstPass ["LOOP: mov r1, r2".toList]).symtab
        (firstPass ["LOOP: mov r1, r2".toList]).errorFlag).iwrites =
      [(0, ⟨(0 <<< 6) ||| (OperandType.register.toNat <<< 4) |||
              (OperandType.register.toNat <<< 2), .absolute⟩),
       (1, ⟨(1 <<< 6) ||| (2 <<< 3), .absolute⟩)] := by decide

/-- C6 counterexample: `add_symbol` checks the *new* symbol's external flag,
not the existing binding's.  With a table whose only binding of `FOO` is
external, a non-external declaration of `FOO` fails `DuplicateLabel`, even
though no non-external binding of the name exists — refuting the claim's
"exactly when a non-external binding already exists". -/
theorem addSymbol_rejects_label_over_external_binding :
    addSymbol "FOO".toList 100 false false false
        [⟨"FOO".toList, 0, true, false, false, false⟩] = .error .duplicateLabel ∧
    (([⟨"FOO".toList, 0, true, false, false, false⟩] : List AsmSymbol).all
      (fun s => s.isExternalFlag)) = true := by decide

/-- C6 amended: `add_symbol` fails (and the failure is `DuplicateLabel`)
exactly when some binding of the name — external or not — already exists and
the *new* binding is non-external.  In particular the claim's two positive
cases hold (a duplicated non-external label errors; repeating an externalize
directive never errors), but a non-external declaration over an
external-only binding also errors. -/
theorem addSymbol_duplicate_iff (name : Str) (address : Nat)
    (isExt isData instrB : Bool) (table : List AsmSymbol) :
    addSymbol name address isExt isData instrB table = .error .duplicateLabel ↔
      ((findSymbol name table).isSome ∧ isExt = false) := by
  unfold addSymbol
  split
  · simp_all
  · simp_all [not_and_or]

/-- C5 counterexample: for the unit consisting of the single line
`LOOP: inc r1`, Pass 1 binds `LOOP` at the initial counter (100) on an
instruction line, then `get_instruction_length` rejects the operand (it
validates the sole operand of a one-operand instruction against the all-zero
*source* mask), so `IC` never advances: the final instruction counter is
also 100, and `LOOP`'s address does not lie in
`[initial counter, final counter)` — refuting the claim's second part. -/
theorem instr_label_at_final_counter_on_sizing_error :
    (firstPass ["LOOP: inc r1".toList]).ic = 100 ∧
    (firstPass ["LOOP: inc r1".toList]).symtab =
      [⟨"LOOP".toList, 100, false, false, false, true⟩] ∧
    ((firstPass ["LOOP: inc r1".toList]).symtab.all
      (fun s => !s.instrBound || s.address.blt (firstPass ["LOOP: inc r1".toList]).ic))
      = false := by decide

/-- `add_external_reference` pushes on the front of the list, so folding a
recording sequence over an accumulator reverses it. -/
theorem foldl_addExternalReference (uses : List (Str × Nat)) (acc : List (Str × Nat)) :
    uses.foldl (fun refs u => addExternalReference u.1 u.2 refs) acc =
      uses.reverse ++ acc := by
  induction uses generalizing acc with
  | nil => simp
  | cons u us ih => simp [addExternalReference, ih]

/-- C9 counterexample: recording use `(A, 100)` and then use `(B, 101)` makes
`generate_externals_file` list `B` first — the artifact rows are *not* in the
order in which the uses were recorded. -/
theorem externals_rows_not_in_recording_order :
    generateExternalsRows
        (addExternalReference "B".toList 101
          (addExternalReference "A".toList 100 [])) =
      some [extRow ("B".toList, 101), extRow ("A".toList, 100)] ∧
    [extRow ("B".toList, 101), extRow ("A".toList, 100)] ≠
      [extRow ("A".toList, 100), extRow ("B".toList, 101)] := by decide

/-- C9 amended: the externals artifact still holds exactly one `(name,
address)` row per recorded use, but in *reverse* recording order: after
recording a non-empty sequence of uses via `add_external_reference`, the file
rows are the rendered uses, reversed (`add_external_reference` prepends and
`generate_externals_file` walks the list from its head). -/
theorem externals_rows_reverse_of_recording (uses : List (Str × Nat))
    (h : uses ≠ []) :
    generateExternalsRows
        (uses.foldl (fun refs u => addExternalReference u.1 u.2 refs) []) =
      some ((uses.map extRow).reverse) := by
  rw [foldl_addExternalReference, List.append_nil]
  unfold generateExternalsRows
  rw [if_neg (by simpa using h), List.map_reverse]

/-- Witness for C9's amended theorem at a concrete two-use recording. -/
theorem externals_rows_reverse_of_recording_witness :
    generateExternalsRows
        ([(("A".toList : Str), 100), (("B".toList : Str), 101)].foldl
          (fun refs u => addExternalReference u.1 u.2 refs) []) =
      some (([(("A".toList : Str), 100), (("B".toList : Str), 101)].map extRow).reverse) :=
  externals_rows_reverse_of_recording _ (by decide)

/-- Trimming never lengthens a string. -/
theorem trimC_length_le (l : Str) : (trimC l).length ≤ l.length := by
  unfold trimC
  have h1 : ((l.dropWhile isSpaceC).reverse.dropWhile isSpaceC).length ≤
      (l.dropWhile isSpaceC).reverse.length := (List.dropWhile_sublist _).length_le
  have h2 : (l.dropWhile isSpaceC).length ≤ l.length := (List.dropWhile_sublist _).length_le
  simp only [List.length_reverse] at *
  omega

/-- C10: when the text before the first colon of a line is
`MAX_LABEL_LENGTH` (32) characters or longer, `extract_label` returns no
label and leaves the rest-of-line pointer at the entire original line; and
every label it does return is shorter than `MAX_LABEL_LENGTH`, so no label
ever outgrows the 32-byte label buffer or reaches `add_symbol`. -/
theorem extractLabel_rejects_long_label (line : Str) :
    (maxLabelLength ≤ (line.takeWhile (fun c => c ≠ ':')).length →
      extractLabel line = (none, line)) ∧
    (∀ lab rest, extractLabel line = (some lab, rest) →
      lab.length < maxLabelLength) := by
  constructor
  · intro h
    unfold extractLabel
    split
    · rw [if_pos h]
    · rfl
  · intro lab rest h
    simp only [extractLabel] at h
    split at h
    · split at h
      · exact absurd h (by simp)
      · rename_i hlen
        injection h with h1 h2
        injection h1 with h1
        have hle : lab.length ≤ (line.take ((line.takeWhile (fun c => c ≠ ':')).length)).length := by
          rw [← h1]; exact trimC_length_le _
        simp only [List.length_take] at hle
        omega
    · exact absurd h (by simp)

/-- Witness for C10 at a line whose pre-colon text is 36 characters. -/
theorem extractLabel_rejects_long_label_witness :
    extractLabel "AAAAAAAAAAAAAAAAAAAAAAAAAAAAAAAAAAAA: rts".toList =
      (none, "AAAAAAAAAAAAAAAAAAAAAAAAAAAAAAAAAAAA: rts".toList) :=
  (extractLabel_rejects_long_label _).1 (by decide)

/-- C7: in Normal state, a line that is not blank/comment, not a definition
start or terminator, and whose candidate token names a registered definition
with body `content` (N stored lines) is replaced by exactly those N stored
lines, in order, appended directly to the output stream.  The emitted body
lines go straight to the output and are never fed back through the scanner,
so they are not rescanned for further invocations. -/
theorem mcr_invocation_emits_stored_body (st : McrState) (line : Str) (m : McrDef)
    (hNormal : st.inBody = false)
    (hNotSkip : (isEmptyLine (trimC line) || (trimC line).head? == some ';') = false)
    (hNotStart : ¬ ("mcro ".toList.isPrefixOf (trimC line) ∨
      "macr ".toList.isPrefixOf (trimC line)))
    (hNotEnd : ¬ (trimC line = "mcroend".toList ∨ trimC line = "endmacr".toList))
    (hCand : candidateOf (trimC line) ≠ [])
    (hFound : findMcr (candidateOf (trimC line)) st.table = some m) :
    stepMcr st line = .ok {st with output := st.output ++ m.content} := by
  unfold stepMcr
  rw [if_neg (by simp [hNotSkip]), if_neg hNotStart, if_neg hNotEnd,
    if_neg (by simp [hNormal])]
  simp only [if_neg hCand, hFound]

/-- Witness for C7 at a concrete state and line: a two-line body stored under
`M`, invoked by the line `M`, lands verbatim after the existing output. -/
theorem mcr_invocation_emits_stored_body_witness :
    stepMcr ⟨false, [], [], [⟨"M".toList, ["inc r1".toList, "dec r2".toList]⟩],
        ["x".toList]⟩ "M".toList =
      .ok ⟨false, [], [], [⟨"M".toList, ["inc r1".toList, "dec r2".toList]⟩],
        ["x".toList, "inc r1".toList, "dec r2".toList]⟩ :=
  mcr_invocation_emits_stored_body _ _
    ⟨"M".toList, ["inc r1".toList, "dec r2".toList]⟩ rfl (by decide) (by decide)
    (by decide) (by decide) (by decide)

/-- C3 counterexample: the object-artifact token of a word renders only the
low 10 payload bits and never consults the relocation tag, so the valid
words `(0, Absolute)` and `(0, External)` render to the very same token
while their tags differ — decoding the rendered token cannot recover the
original tag, so the claimed exact reversibility is false
(`objWordToken_tag_unrecoverable` states the impossibility explicitly). -/
theorem objWordToken_not_reversible :
    objWordToken ⟨0, Are.absolute⟩ = objWordToken ⟨0, Are.external⟩ ∧
    Are.absolute ≠ Are.external := by decide

/-- No decoding function can recover both payload and tag from the rendered
object-artifact token, for all valid payload/tag combinations. -/
theorem objWordToken_tag_unrecoverable :
    ¬ ∃ dec : Str → Nat × Are, ∀ (v : Nat) (t : Are), v < memorySize →
        dec (objWordToken ⟨v, t⟩) = (v, t) := by
  rintro ⟨dec, h⟩
  have h1 := h 0 .absolute (by decide)
  have h2 := h 0 .external (by decide)
  have hsame : objWordToken ⟨0, Are.external⟩ = objWordToken ⟨0, Are.absolute⟩ := rfl
  rw [hsame, h1] at h2
  simp at h2

/-- Decoder for the 5-letter word token: read the letters back as base-4
digits, most significant first. -/
def decodeLetters (s : Str) : Nat :=
  s.foldl (fun acc c => acc * 4 + (c.toNat - 97)) 0

set_option maxRecDepth 8000 in
/-- C3 amended: the rendering is reversible in the payload alone, and only up
to its low 10 bits: for every payload below 1024 and *any* tag,
`decodeLetters` recovers the payload exactly from the rendered token.  The
tag is simply absent from the artifact (and payloads of the 12-bit word at or
above 1024 alias their low 10 bits). -/
theorem objWordToken_payload_reversible (v : Nat) (t : Are) (hv : v < 1024) :
    decodeLetters (objWordToken ⟨v, t⟩) = v := by
  have key : ∀ w, w < 1024 → decodeLetters (encodeBinary10ToLetters (binary10 w)) = w := by
    decide
  exact key v hv

/-- Witness for C3's amended theorem at payload 613 with an External tag. -/
theorem objWordToken_payload_reversible_witness :
    decodeLetters (objWordToken ⟨613, Are.external⟩) = 613 :=
  objWordToken_payload_reversible 613 Are.external (by decide)

/-- A successful `add_symbol` pushes exactly the new symbol, entry flag
clear, on the front of the table. -/
theorem addSymbol_ok_shape {n : Str} {a : Nat} {e d i : Bool}
    {tbl tbl' : List AsmSymbol} (h : addSymbol n a e d i tbl = .ok tbl') :
    tbl' = ⟨n, a, e, false, d, i⟩ :: tbl := by
  unfold addSymbol at h
  split at h
  · simp at h
  · simp only [Except.ok.injEq] at h
    exact h.symm

/-- A member of an `addSymbolDiscard` result is the freshly added symbol
(whose ghost instruction-line marker is `false`) or an old member. -/
theorem addSymbolDiscard_mem {n : Str} {a : Nat} {e d : Bool}
    {tbl : List AsmSymbol} (s : AsmSymbol)
    (h : s ∈ addSymbolDiscard n a e d tbl) : s.instrBound = false ∨ s ∈ tbl := by
  unfold addSymbolDiscard at h
  split at h
  · rename_i t heq
    rw [addSymbol_ok_shape heq] at h
    rcases List.mem_cons.mp h with h1 | h1
    · left; rw [h1]
    · right; exact h1
  · right; exact h

/-- The sizing loop maps a dead accumulator to a dead accumulator. -/
theorem foldl_lengthStep_none (l : List Nat) (info : InstructionInfo)
    (ops : List Str) (c : Nat) : l.foldl (lengthStep info ops c) none = none := by
  induction l with
  | nil => rfl
  | cons x xs ih => simpa [lengthStep] using ih

/-- One sizing-loop iteration never decreases the accumulated length. -/
theorem lengthStep_le {info : InstructionInfo} {ops : List Str} {c b i m : Nat}
    (h : lengthStep info ops c (some b) i = some m) : b ≤ m := by
  simp only [lengthStep] at h
  split at h
  · exact Option.noConfusion h
  · split at h
    · simp only [Option.some.injEq] at h; omega
    · split at h
      · simp only [Option.some.injEq] at h; omega
      · simp only [Option.some.injEq] at h; omega

/-- The sizing loop never decreases the accumulated length. -/
theorem foldl_lengthStep_le {info : InstructionInfo} {ops : List Str} {c : Nat} :
    ∀ (l : List Nat) (b n : Nat),
      l.foldl (lengthStep info ops c) (some b) = some n → b ≤ n := by
  intro l
  induction l with
  | nil => intro b n h; simp at h; omega
  | cons i is ih =>
    intro b n h
    simp only [List.foldl_cons] at h
    rcases heq : lengthStep info ops c (some b) i with _ | m
    · rw [heq, foldl_lengthStep_none] at h; cases h
    · rw [heq] at h
      exact Nat.le_trans (lengthStep_le heq) (ih m n h)

/-- `get_instruction_length` starts from 1 and only ever increments, so a
successful sizing is at least one word. -/
theorem getInstructionLength_pos {a : Str} {ops : List Str} {n : Nat}
    (h : getInstructionLength a ops = some n) : 1 ≤ n := by
  unfold getInstructionLength at h
  split at h
  · cases h
  · split at h
    · cases h
    · exact foldl_lengthStep_le _ 1 n h

/-- The Pass 1 scanning invariant for the claim about symbol addresses: the
instruction counter never drops below its initial value, and every symbol
bound on an instruction line is a non-data symbol whose address lies in
`[INITIAL_IC, current IC)`. -/
def FPInv (st : FPState) : Prop :=
  initialIC ≤ st.ic ∧
  ∀ s ∈ st.symtab, s.instrBound = true →
    s.isDataFlag = false ∧ initialIC ≤ s.address ∧ s.address < st.ic

/-- A successful `bindInstrLabel` yields the old table, possibly with one
new symbol bound at the current `IC` with the ghost instruction-line marker
set and the data flag clear. -/
theorem bindInstrLabel_ok_mem {st : FPState} {label : Option Str}
    {tab : List AsmSymbol} (heq : bindInstrLabel st label = .ok tab) :
    ∀ s ∈ tab, (s.address = st.ic ∧ s.instrBound = true ∧ s.isDataFlag = false) ∨
      s ∈ st.symtab := by
  rcases label with _ | l
  · simp only [bindInstrLabel, Except.ok.injEq] at heq
    intro s hs; right; rw [heq]; exact hs
  · simp only [bindInstrLabel] at heq
    split at heq
    · intro s hs
      rw [addSymbol_ok_shape heq] at hs
      rcases List.mem_cons.mp hs with h1 | h1
      · left; rw [h1]; exact ⟨rfl, rfl, rfl⟩
      · right; exact h1
    · simp only [Except.ok.injEq] at heq
      intro s hs; right; rw [heq]; exact hs

/-- Members of a directive line\'s label-binding table (whose ghost
instruction-line marker is never set) satisfy the invariant\'s per-symbol
condition whenever the old table does. -/
theorem bindDirectiveLabel_inv {st : FPState} {label : Option Str} {addr : Nat}
    {isData : Bool} (hInv : FPInv st) (s : AsmSymbol)
    (hs : s ∈ bindDirectiveLabel st label addr isData)
    (hb : s.instrBound = true) :
    s.isDataFlag = false ∧ initialIC ≤ s.address ∧ s.address < st.ic := by
  rcases label with _ | l
  · simp only [bindDirectiveLabel] at hs
    exact hInv.2 s hs hb
  · simp only [bindDirectiveLabel] at hs
    split at hs
    · rcases addSymbolDiscard_mem s hs with h1 | h1
      · rw [h1] at hb; cases hb
      · exact hInv.2 s h1 hb
    · exact hInv.2 s hs hb

/-- `process_instruction_first_pass` never decreases `IC`, never touches the
error list, and — when it succeeds — preserves the scanning invariant: the
label (if any) is bound at the old `IC` and `IC` then advances by the sized
length, which is at least 1. -/
theorem processInstructionFP_props (st : FPState) (parts : List Str)
    (label : Option Str) :
    st.ic ≤ (processInstructionFP st parts label).2.ic ∧
    (processInstructionFP st parts label).2.errors = st.errors ∧
    (FPInv st → (processInstructionFP st parts label).1 = .success →
      FPInv (processInstructionFP st parts label).2) := by
  unfold processInstructionFP
  split
  · exact ⟨Nat.le_refl _, rfl, fun _ hc => by simp at hc⟩
  · rename_i tab heq
    split
    · exact ⟨Nat.le_refl _, rfl, fun _ hc => by simp at hc⟩
    · split
      · exact ⟨Nat.le_refl _, rfl, fun _ hc => by simp at hc⟩
      · rename_i len hlen
        have hpos := getInstructionLength_pos hlen
        refine ⟨Nat.le_add_right _ _, rfl, ?_⟩
        intro hInv _
        have htab := bindInstrLabel_ok_mem heq
        constructor
        · have := hInv.1; simp only; omega
        · intro s hs hb
          rcases htab s hs with ⟨ha, _, hd⟩ | hmem
          · exact ⟨hd, by rw [ha]; exact hInv.1, by simp only [ha]; omega⟩
          · obtain ⟨hd, hlo, hhi⟩ := hInv.2 s hmem hb
            exact ⟨hd, hlo, by simp only; omega⟩

/-- `process_directive_first_pass` leaves `IC` and the error list untouched
and preserves the scanning invariant (directive labels never carry the ghost
instruction-line marker). -/
theorem processDirectiveFP_props (st : FPState) (parts : List Str)
    (label : Option Str) :
    (processDirectiveFP st parts label).2.ic = st.ic ∧
    (processDirectiveFP st parts label).2.errors = st.errors ∧
    (FPInv st → FPInv (processDirectiveFP st parts label).2) := by
  unfold processDirectiveFP
  split
  · exact ⟨rfl, rfl, fun hInv =>
      ⟨hInv.1, fun s hs hb => bindDirectiveLabel_inv hInv s hs hb⟩⟩
  · split
    · exact ⟨rfl, rfl, fun hInv =>
        ⟨hInv.1, fun s hs hb => bindDirectiveLabel_inv hInv s hs hb⟩⟩
    · split
      · exact ⟨rfl, rfl, fun hInv => hInv⟩
      · split
        · split
          · refine ⟨rfl, rfl, fun hInv => ⟨hInv.1, fun s hs hb => ?_⟩⟩
            rcases addSymbolDiscard_mem s hs with h1 | h1
            · rw [h1] at hb; cases hb
            · exact hInv.2 s h1 hb
          · exact ⟨rfl, rfl, fun hInv => hInv⟩
        · exact ⟨rfl, rfl, fun hInv => hInv⟩

/-- `process_line_first_pass` never decreases `IC`, never touches the error
list, and preserves the scanning invariant when it succeeds. -/
theorem processLineFP_props (st : FPState) (line : Str) :
    st.ic ≤ (processLineFP st line).2.ic ∧
    (processLineFP st line).2.errors = st.errors ∧
    (FPInv st → (processLineFP st line).1 = .success →
      FPInv (processLineFP st line).2) := by
  unfold processLineFP
  split
  · exact ⟨Nat.le_refl _, rfl, fun h _ => h⟩
  · split
    · split
      · split
        · rename_i tab heq
          refine ⟨Nat.le_refl _, rfl, fun hInv _ => ⟨hInv.1, fun s hs hb => ?_⟩⟩
          rw [addSymbol_ok_shape heq] at hs
          rcases List.mem_cons.mp hs with h1 | h1
          · rw [h1] at hb; cases hb
          · exact hInv.2 s h1 hb
        · exact ⟨Nat.le_refl _, rfl, fun _ hc => by simp at hc⟩
      · exact ⟨Nat.le_refl _, rfl, fun h _ => h⟩
    · rename_i w0 ws heq
      split
      · exact processInstructionFP_props st _ _
      · split
        · obtain ⟨h1, h2, h3⟩ :=
            processDirectiveFP_props st (w0 :: ws) (extractLabel line).1
          exact ⟨Nat.le_of_eq h1.symm, h2, fun hInv _ => h3 hInv⟩
        · exact ⟨Nat.le_refl _, rfl, fun _ hc => by simp at hc⟩

/-- One `first_pass` loop iteration: `IC` never decreases, the error list
only grows, and if no error was recorded the invariant is preserved. -/
theorem stepFP_props (st : FPState) (line : Str) :
    st.ic ≤ (stepFP st line).ic ∧
    (∃ t, (stepFP st line).errors = st.errors ++ t) ∧
    (FPInv st → (stepFP st line).errors = st.errors → FPInv (stepFP st line)) := by
  obtain ⟨h1, h2, h3⟩ := processLineFP_props st line
  unfold stepFP
  by_cases hc : (processLineFP st line).1 = .success
  · rw [if_pos hc]
    exact ⟨h1, ⟨[], by rw [h2]; simp⟩, fun hInv _ => h3 hInv hc⟩
  · rw [if_neg hc]
    refine ⟨h1, ⟨[(processLineFP st line).1], by rw [h2]⟩, ?_⟩
    intro _ habs
    simp only [h2] at habs
    have := congrArg List.length habs
    simp at this

/-- The whole `first_pass` scanning loop: `IC` never decreases, the error
list only grows, and an error-free scan preserves the invariant. -/
theorem foldl_stepFP_props (lines : List Str) :
    ∀ st : FPState,
      st.ic ≤ (lines.foldl stepFP st).ic ∧
      (∃ t, (lines.foldl stepFP st).errors = st.errors ++ t) ∧
      (FPInv st → (lines.foldl stepFP st).errors = st.errors →
        FPInv (lines.foldl stepFP st)) := by
  induction lines with
  | nil => exact fun st => ⟨Nat.le_refl _, ⟨[], by simp⟩, fun h _ => h⟩
  | cons l ls ih =>
    intro st
    obtain ⟨h1, ⟨t1, h2⟩, h3⟩ := stepFP_props st l
    obtain ⟨g1, ⟨t2, g2⟩, g3⟩ := ih (stepFP st l)
    simp only [List.foldl_cons]
    refine ⟨Nat.le_trans h1 g1,
      ⟨t1 ++ t2, by rw [g2, h2, List.append_assoc]⟩, ?_⟩
    intro hInv heq
    rw [g2, h2, List.append_assoc] at heq
    have hlen := congrArg List.length heq
    simp only [List.length_append] at hlen
    have ht1 : t1 = [] := List.eq_nil_of_length_eq_zero (by omega)
    have ht2 : t2 = [] := List.eq_nil_of_length_eq_zero (by omega)
    refine g3 (h3 hInv ?_) ?_
    · rw [h2, ht1, List.append_nil]
    · rw [g2, h2, ht1, ht2]
      simp

/-- C5 amended: after `first_pass`, every symbol flagged as data has had
exactly the final instruction counter added to its scan-time address, so its
final address is at least the final instruction counter — unconditionally.
Every symbol bound on an instruction line has an address in
`[initial instruction counter, final instruction counter)` *provided the
scan recorded no per-line error*; with a recorded error the label of a line
whose sizing failed can sit at the final counter itself (see the
counterexample theorem). -/
theorem firstPass_symbol_addresses (lines : List Str) (s : AsmSymbol)
    (hs : s ∈ (firstPass lines).symtab) :
    (s.isDataFlag = true → (firstPass lines).ic ≤ s.address ∧
      ∃ s₀ ∈ (firstPassScan lines).symtab,
        s.address = s₀.address + (firstPassScan lines).ic) ∧
    ((firstPass lines).errors = [] → s.instrBound = true →
      initialIC ≤ s.address ∧ s.address < (firstPass lines).ic) := by
  have hic : (firstPass lines).ic = (firstPassScan lines).ic := rfl
  have herr : (firstPass lines).errors = (firstPassScan lines).errors := rfl
  simp only [firstPass, rebaseData] at hs
  obtain ⟨s₀, hmem, hf⟩ := List.mem_map.mp hs
  constructor
  · intro hd
    by_cases h0 : s₀.isDataFlag = true
    · rw [if_pos h0] at hf
      rw [← hf]
      exact ⟨by rw [hic]; exact Nat.le_add_left _ _, ⟨s₀, hmem, rfl⟩⟩
    · rw [if_neg h0] at hf
      rw [← hf] at hd
      exact absurd hd h0
  · intro he hb
    have hscan : FPInv (firstPassScan lines) := by
      have h := foldl_stepFP_props lines ⟨initialIC, initialDC, [], false, []⟩
      refine h.2.2 ⟨Nat.le_refl _, fun s hmem _ => absurd hmem (List.not_mem_nil _)⟩ ?_
      rw [herr] at he
      exact he
    by_cases h0 : s₀.isDataFlag = true
    · rw [if_pos h0] at hf
      have hbb : s₀.instrBound = true := by
        rw [← hf] at hb
        simpa using hb
      obtain ⟨hcontra, -, -⟩ := hscan.2 s₀ hmem hbb
      rw [h0] at hcontra
      cases hcontra
    · rw [if_neg h0] at hf
      subst hf
      obtain ⟨-, hlo, hhi⟩ := hscan.2 s₀ hmem hb
      exact ⟨hlo, by rw [hic]; exact hhi⟩

/-- Witness for C5's amended theorem: on the error-free unit
`LOOP: mov r1, r2` / `X: .data 7`, the instruction-line symbol `LOOP`
(address 100) lies in `[INITIAL_IC, final IC)`. -/
theorem firstPass_symbol_addresses_witness :
    initialIC ≤ 100 ∧
      100 < (firstPass ["LOOP: mov r1, r2".toList, "X: .data 7".toList]).ic :=
  (firstPass_symbol_addresses ["LOOP: mov r1, r2".toList, "X: .data 7".toList]
    ⟨"LOOP".toList, 100, false, false, false, true⟩ (by decide)).2 (by decide) rfl
